import Mathlib

/-
Verification of the database migration engine (fas/util/database/tasks.py)
against its natural-language specification.

The shallow embedding below translates the migration orchestrator and its
collaborators into pure Lean functions.  Parts of the repository that are
not among the given sources (the transactional decorator in transaction.py,
the script loader in migration.py, and the low-level DB client in client.py)
are modelled from the specification's description of their interfaces; every
such definition is marked with a doc comment starting with
"Modelled from the spec:".
-/

namespace Fas

/-- A row of the database_migration ledger table (tasks.py lines 164-175):
the identity column id, the applied range from_version / to_version, and the
migrated_at timestamp (modelled as an abstract clock value). -/
structure MigrationRecord where
  id : Nat
  from_version : Int
  to_version : Int
  migrated_at : Nat
deriving DecidableEq

/-- The database state visible to the migration tasks: whether the
database_migration table exists, its rows in insertion order, the next
identity value, and the ordered log of migration scripts whose SQL has been
executed. -/
structure DBState where
  tableExists : Bool
  ledger : List MigrationRecord
  nextId : Nat
  appliedScripts : List Int
deriving DecidableEq

/-- Failures raised by the database operations on the migration path: the
missing-version lookup failure (the KeyError raised by the
versions[version] subscript in execute_migration_scripts), a failing script
statement, and rejection of a ledger insert by the CHECK constraint or by
the range-exclusion constraint. -/
inductive DBError where
  | missingVersion (v : Int)
  | scriptFailure (v : Int)
  | checkViolation
  | overlapViolation
deriving DecidableEq

/-- A database connection context: the committed state, the open
transaction's view when a transaction is active, and whether this session
holds the migration advisory lock (held until transaction end). -/
structure Ctx where
  committed : DBState
  txn : Option DBState
  lockHeld : Bool
deriving DecidableEq

/-- Modelled from the spec: the external collaborators of one migration run,
fixed for its duration — the script versions present on disk (migration.py
is not among the sources), whether each version's SQL executes without
error, whether another session already holds the migration advisory lock,
and the current clock value. -/
structure Env where
  versions : List Int
  scriptOk : Int → Bool
  lockTakenByOther : Bool
  now : Nat

/-- The database state a statement runs against: the open transaction's view
when one is active, otherwise the committed state. -/
def Ctx.view (c : Ctx) : DBState := c.txn.getD c.committed

/-- Write back the state a statement produced: into the open transaction's
view when one is active, otherwise directly into the committed state. -/
def Ctx.setView (c : Ctx) (s : DBState) : Ctx :=
  match c.txn with
  | some _ => { c with txn := some s }
  | none => { c with committed := s }

/-- Python's coercion in the expression (scalar or 0) on tasks.py line 142:
a missing scalar becomes 0, and a falsy 0 stays 0. -/
def pyOrZero : Option Int → Int
  | none => 0
  | some v => if v = 0 then 0 else v

/-- The row produced by ORDER BY id DESC LIMIT 1: the row of the ledger with
the largest id, if any. -/
def topByIdDesc : List MigrationRecord → Option MigrationRecord
  | [] => none
  | r :: rest =>
    match topByIdDesc rest with
    | none => some r
    | some b => if b.id < r.id then some r else some b

/-- Modelled from the spec: the scalar SELECT issued by _migrate (tasks.py
lines 141-142), as executed by the database — the to_version of the ledger
row with the largest id, or no row when the ledger is empty. -/
def selectTopToVersion (s : DBState) : Option Int :=
  (topByIdDesc s.ledger).map (fun r => r.to_version)

/-- The current version as _migrate computes it (tasks.py lines 141-142):
the scalar of SELECT to_version FROM database_migration ORDER BY id DESC
LIMIT 1, put through Python's or-0 coercion. -/
def query_current_version (s : DBState) : Int :=
  pyOrZero (selectTopToVersion s)

/-- Python's range(a + 1, b + 1) (tasks.py line 157): the integers
a + 1, ..., b in ascending order; empty when b is at most a. -/
def rangeClosed (a b : Int) : List Int :=
  (List.range (b - a).toNat).map (fun i => a + 1 + i)

/-- Python's max over the version keys (tasks.py line 149), with 0 for the
empty list; the source only applies it to a non-empty mapping. -/
def listMax : List Int → Int
  | [] => 0
  | h :: t => t.foldl max h

/-- Modelled from the spec: load_versions (migration.py, not among the
sources) returns the scripts whose version is strictly greater than the
given bound; only the key set matters here, each script's behaviour being
carried by Env.scriptOk. -/
def load_versions (env : Env) (after : Int) : List Int :=
  env.versions.filter (fun v => decide (after < v))

/-- Modelled from the spec: DBClient.try_transaction_lock (client.py, not
among the sources) — a non-blocking, transaction-scoped advisory lock
attempt: false when another session holds the key, otherwise the lock is
acquired and held until the surrounding transaction ends. -/
def try_transaction_lock (env : Env) (c : Ctx) : Bool × Ctx :=
  if env.lockTakenByOther then (false, c)
  else (true, { c with lockHeld := true })

/-- The CREATE TABLE IF NOT EXISTS statement of
create_database_migration_table_if_not_exist (tasks.py lines 164-175):
idempotent creation of the ledger table. -/
def create_database_migration_table_if_not_exist (c : Ctx) : Ctx :=
  c.setView { c.view with tableExists := true }

/-- Overlap of the ranges (f1, t1] and (f2, t2], as the range-overlap
operator on NUMRANGE values computes it; an empty range overlaps nothing. -/
def rangesOverlap (f1 t1 f2 t2 : Int) : Bool :=
  decide (max f1 f2 < min t1 t2)

/-- Modelled from the spec: the insert into database_migration as the
database executes it under the DDL of tasks.py lines 164-175 — the CHECK
constraint to_version > from_version and the GIST exclusion constraint over
the half-open version ranges are enforced by storage; a row that passes
both receives the next identity value and is appended. -/
def insert_migration (c : Ctx) (f t : Int) (ts : Nat) : Except DBError Unit × Ctx :=
  let s := c.view
  if ¬ (f < t) then (.error .checkViolation, c)
  else if s.ledger.any (fun r => rangesOverlap f t r.from_version r.to_version) then
    (.error .overlapViolation, c)
  else
    (.ok (), c.setView { s with
      ledger := s.ledger ++ [⟨s.nextId, f, t, ts⟩],
      nextId := s.nextId + 1 })

/-- The for-loop of execute_migration_scripts (tasks.py lines 157-159): for
each version of the contiguous range, look the version up in the versions
mapping (a missing key raises) and execute that script's SQL (logged in
appliedScripts; a failing statement raises). -/
def execute_scripts_loop (env : Env) (versions : List Int) :
    List Int → Ctx → Except DBError Unit × Ctx
  | [], c => (.ok (), c)
  | v :: rest, c =>
    if v ∈ versions then
      if env.scriptOk v then
        execute_scripts_loop env versions rest
          (c.setView { c.view with appliedScripts := c.view.appliedScripts ++ [v] })
      else (.error (.scriptFailure v), c)
    else (.error (.missingVersion v), c)

/-- The body of execute_migration_scripts (tasks.py lines 155-161): run
every script of the range from_version + 1 .. to_version in ascending
order, then insert the single ledger row for the whole range. -/
def scripts_and_insert (env : Env) (from_version to_version : Int)
    (versions : List Int) (c : Ctx) : Except DBError Unit × Ctx :=
  match execute_scripts_loop env versions (rangeClosed from_version to_version) c with
  | (.ok _, c1) => insert_migration c1 from_version to_version env.now
  | (.error e, c1) => (.error e, c1)

/-- Modelled from the spec: the transactional decorator (transaction.py, not
among the sources; exercised by tests/database/test_transaction.py): reuse
an already-active transaction on the same context; otherwise begin one,
commit its view on normal return, and on a raised failure roll back
(discarding the transaction's view) and re-raise the failure unchanged; the
advisory lock is released when the transaction ends either way. -/
def transactional {α : Type} (f : Ctx → Except DBError α × Ctx) (c : Ctx) :
    Except DBError α × Ctx :=
  match c.txn with
  | some _ => f c
  | none =>
    match f { c with txn := some c.committed } with
    | (.ok a, c1) => (.ok a, { c1 with committed := c1.view, txn := none, lockHeld := false })
    | (.error e, c1) => (.error e, { c1 with committed := c.committed, txn := none, lockHeld := false })

/-- execute_migration_scripts (tasks.py lines 155-161), together with its
transactional decorator. -/
def execute_migration_scripts (env : Env) (from_version to_version : Int)
    (versions : List Int) : Ctx → Except DBError Unit × Ctx :=
  transactional (scripts_and_insert env from_version to_version versions)

/-- The body of _migrate (tasks.py lines 134-152): try the advisory lock and
give up silently when it is not acquired; ensure the ledger table; read the
current version; load the versions pending after it (no-op when there are
none); otherwise apply them up to their maximum. -/
def migrate_body (env : Env) (c : Ctx) : Except DBError Unit × Ctx :=
  match try_transaction_lock env c with
  | (false, c1) => (.ok (), c1)
  | (true, c1) =>
    let c2 := create_database_migration_table_if_not_exist c1
    let current_version := query_current_version c2.view
    let new_versions := load_versions env current_version
    if new_versions.isEmpty then (.ok (), c2)
    else
      execute_migration_scripts env current_version (listMax new_versions) new_versions c2

/-- The migration orchestrator _migrate (tasks.py lines 133-152):
migrate_body under the transactional decorator. -/
def _migrate (env : Env) : Ctx → Except DBError Unit × Ctx :=
  transactional (migrate_body env)

/-- MIGRATION_TABLE (tasks.py line 123). -/
def MIGRATION_TABLE : String := "database_migration"

/-- The string whose hash becomes the migration lock key (tasks.py line
124): a constant salt concatenated with the ledger table name. -/
def MIGRATION_LOCK_INPUT : String :=
  "i48gEtCCfX1lxPpWgVyBYH1z4VQpFNz7+" ++ MIGRATION_TABLE

/-- MIGRATION_LOCK_KEY (tasks.py line 124): the running interpreter's
built-in string hash applied to the salted table name; the hash function is
a parameter of the model because Python's str hash is salted per process. -/
def MIGRATION_LOCK_KEY (pyHash : String → Int) : Int :=
  pyHash MIGRATION_LOCK_INPUT

/-- The observable steps of the migrate task, migrate_database
(tasks.py lines 52-61), at the granularity the claims speak about. -/
inductive MigrateStep where
  | check_no_scripts_not_locked
  | check_no_locked_scripts_changed
  | create_database_if_not_exist
  | open_db_connection
  | run_migrate
deriving DecidableEq

/-- migrate_database (tasks.py lines 52-61) as the sequence of steps it
performs: the two pre-flight guards exactly when the environment is neither
dev nor test, then database creation, then opening the pool and acquiring a
connection, then the _migrate run. -/
def migrate_database (is_dev is_test : Bool) : List MigrateStep :=
  (if !(is_dev || is_test) then
    [MigrateStep.check_no_scripts_not_locked, MigrateStep.check_no_locked_scripts_changed]
   else []) ++
  [MigrateStep.create_database_if_not_exist, MigrateStep.open_db_connection,
   MigrateStep.run_migrate]

/-- The outcome of the script loop alone, as a function of the range walked
and of the available versions. -/
def loopOutcome (env : Env) (versions : List Int) : List Int → Except DBError Unit
  | [] => .ok ()
  | v :: rest =>
    if v ∈ versions then
      if env.scriptOk v then loopOutcome env versions rest
      else .error (.scriptFailure v)
    else .error (.missingVersion v)

/-- The versions whose scripts the loop executes before stopping. -/
def appliedUpTo (env : Env) (versions : List Int) : List Int → List Int
  | [] => []
  | v :: rest =>
    if v ∈ versions then
      if env.scriptOk v then v :: appliedUpTo env versions rest
      else []
    else []

/-- A run environment with scripts for versions 1, 2 and 3, all of whose SQL
executes successfully, and with the advisory lock free. -/
def env123 : Env :=
  { versions := [1, 2, 3], scriptOk := fun _ => true, lockTakenByOther := false, now := 7 }

/-- A run environment with scripts for versions 1 and 3 only (a gap at 2),
both executing successfully, and with the advisory lock free. -/
def env13 : Env :=
  { versions := [1, 3], scriptOk := fun _ => true, lockTakenByOther := false, now := 7 }

/-- The same scripts as env123, but the advisory lock is already held by
another session. -/
def env123locked : Env := { env123 with lockTakenByOther := true }

/-- A fresh connection context over an empty database. -/
def ctx0 : Ctx :=
  { committed := { tableExists := false, ledger := [], nextId := 1, appliedScripts := [] },
    txn := none, lockHeld := false }

/-- A connection context whose ledger already holds the ranges (0, 3] and
(3, 5], as in the ledger round-trip scenario of the specification. -/
def ctxLedger2 : Ctx :=
  { committed := {
      tableExists := true,
      ledger := [⟨1, 0, 3, 0⟩, ⟨2, 3, 5, 0⟩],
      nextId := 3,
      appliedScripts := [] },
    txn := none, lockHeld := false }

lemma view_setView (c : Ctx) (s : DBState) : (c.setView s).view = s := by
  obtain ⟨comm, txn, lh⟩ := c
  cases txn <;> rfl

lemma setView_view (c : Ctx) : c.setView c.view = c := by
  obtain ⟨comm, txn, lh⟩ := c
  cases txn <;> rfl

lemma setView_setView (c : Ctx) (s1 s2 : DBState) :
    (c.setView s1).setView s2 = c.setView s2 := by
  obtain ⟨comm, txn, lh⟩ := c
  cases txn <;> rfl

lemma setView_applied_append_nil (c : Ctx) :
    c.setView { c.view with appliedScripts := c.view.appliedScripts ++ [] } = c := by
  rw [List.append_nil]
  exact setView_view c

lemma pyOrZero_some (v : Int) : pyOrZero (some v) = v := by
  by_cases h : v = 0 <;> simp [pyOrZero, h]

lemma query_current_version_tableExists (s : DBState) :
    query_current_version { s with tableExists := true } = query_current_version s := rfl

lemma topByIdDesc_eq_none {l : List MigrationRecord} :
    topByIdDesc l = none ↔ l = [] := by
  cases l with
  | nil => simp [topByIdDesc]
  | cons r rest =>
    simp only [topByIdDesc]
    constructor
    · intro h
      exfalso
      cases h1 : topByIdDesc rest <;> rw [h1] at h
      · exact Option.noConfusion h
      · rename_i b
        by_cases h2 : b.id < r.id <;> simp [h2] at h
    · intro h
      exact List.noConfusion h

lemma topByIdDesc_mem {l : List MigrationRecord} :
    ∀ {b : MigrationRecord}, topByIdDesc l = some b → b ∈ l := by
  induction l with
  | nil => intro b h; exact Option.noConfusion h
  | cons r rest ih =>
    intro b h
    simp only [topByIdDesc] at h
    cases h1 : topByIdDesc rest with
    | none =>
      rw [h1, Option.some_inj] at h
      subst h; exact List.mem_cons_self r rest
    | some b' =>
      rw [h1] at h
      dsimp only at h
      by_cases h2 : b'.id < r.id
      · rw [if_pos h2, Option.some_inj] at h
        subst h; exact List.mem_cons_self r rest
      · rw [if_neg h2, Option.some_inj] at h
        subst h; exact List.mem_cons_of_mem r (ih h1)

lemma topByIdDesc_ge {l : List MigrationRecord} :
    ∀ {b : MigrationRecord}, topByIdDesc l = some b → ∀ x ∈ l, x.id ≤ b.id := by
  induction l with
  | nil => intro b h x hx; cases hx
  | cons r rest ih =>
    intro b h x hx
    simp only [topByIdDesc] at h
    cases h1 : topByIdDesc rest with
    | none =>
      rw [h1, Option.some_inj] at h
      subst h
      rw [topByIdDesc_eq_none.mp h1] at hx
      have hxr : x = r := List.mem_singleton.mp hx
      rw [hxr]
    | some b' =>
      rw [h1] at h
      dsimp only at h
      by_cases h2 : b'.id < r.id
      · rw [if_pos h2, Option.some_inj] at h
        subst h
        rcases List.mem_cons.mp hx with rfl | hx'
        · exact le_refl _
        · exact le_of_lt (lt_of_le_of_lt (ih h1 x hx') h2)
      · rw [if_neg h2, Option.some_inj] at h
        subst h
        rcases List.mem_cons.mp hx with rfl | hx'
        · exact le_of_not_lt h2
        · exact ih h1 x hx'

lemma topByIdDesc_append_big {l : List MigrationRecord} {r : MigrationRecord}
    (h : ∀ x ∈ l, x.id < r.id) : topByIdDesc (l ++ [r]) = some r := by
  induction l with
  | nil => rfl
  | cons a l ih =>
    have ha : a.id < r.id := h a (List.mem_cons_self a l)
    have hl : ∀ x ∈ l, x.id < r.id := fun x hx => h x (List.mem_cons_of_mem a hx)
    simp only [List.cons_append, topByIdDesc, List.append_eq]
    rw [ih hl]
    dsimp only
    rw [if_neg (show ¬ r.id < a.id by omega)]

lemma foldl_max_init (l : List Int) : ∀ a : Int, a ≤ l.foldl max a := by
  induction l with
  | nil => intro a; exact le_refl a
  | cons h t ih => intro a; exact le_trans (le_max_left a h) (ih (max a h))

lemma mem_le_foldl_max (l : List Int) : ∀ (a x : Int), x ∈ l → x ≤ l.foldl max a := by
  induction l with
  | nil => intro a x hx; cases hx
  | cons h t ih =>
    intro a x hx
    rcases List.mem_cons.mp hx with rfl | hx'
    · exact le_trans (le_max_right a x) (foldl_max_init t (max a x))
    · exact ih (max a h) x hx'

lemma foldl_max_mem (l : List Int) : ∀ a : Int, l.foldl max a = a ∨ l.foldl max a ∈ l := by
  induction l with
  | nil => intro a; left; rfl
  | cons h t ih =>
    intro a
    simp only [List.foldl_cons]
    rcases ih (max a h) with heq | hmem
    · rcases max_choice a h with h1 | h1
      · left; rw [heq, h1]
      · right; rw [List.mem_cons]; left; rw [heq, h1]
    · right; exact List.mem_cons_of_mem h hmem

lemma le_listMax {l : List Int} {x : Int} (hx : x ∈ l) : x ≤ listMax l := by
  cases l with
  | nil => cases hx
  | cons h t =>
    simp only [listMax]
    rcases List.mem_cons.mp hx with rfl | hx'
    · exact foldl_max_init t x
    · exact mem_le_foldl_max t h x hx'

lemma listMax_mem {l : List Int} (h : l ≠ []) : listMax l ∈ l := by
  cases l with
  | nil => exact absurd rfl h
  | cons a t =>
    simp only [listMax]
    rcases foldl_max_mem t a with heq | hmem
    · rw [heq]; exact List.mem_cons_self a t
    · exact List.mem_cons_of_mem a hmem

lemma execute_scripts_loop_eq (env : Env) (versions : List Int) :
    ∀ (vs : List Int) (c : Ctx),
      execute_scripts_loop env versions vs c =
        (loopOutcome env versions vs,
         c.setView { c.view with
           appliedScripts := c.view.appliedScripts ++ appliedUpTo env versions vs }) := by
  intro vs
  induction vs with
  | nil =>
    intro c
    simp only [execute_scripts_loop, loopOutcome, appliedUpTo, setView_applied_append_nil]
  | cons v rest ih =>
    intro c
    simp only [execute_scripts_loop, loopOutcome, appliedUpTo]
    by_cases hv : v ∈ versions
    · by_cases hok : env.scriptOk v
      · simp only [hv, hok, if_true]
        rw [ih, view_setView, setView_setView]
        simp [List.append_assoc]
      · simp only [hv, hok, if_true, if_false, Bool.false_eq_true]
        rw [setView_applied_append_nil]
    · simp only [hv, if_false]
      rw [setView_applied_append_nil]

lemma appliedUpTo_of_ok (env : Env) (versions : List Int) :
    ∀ vs : List Int, loopOutcome env versions vs = .ok () →
      appliedUpTo env versions vs = vs := by
  intro vs
  induction vs with
  | nil => intro _; rfl
  | cons v rest ih =>
    intro h
    simp only [loopOutcome] at h
    by_cases hv : v ∈ versions
    · by_cases hok : env.scriptOk v
      · simp only [hv, hok, if_true] at h
        simp only [appliedUpTo, hv, hok, if_true, ih h]
      · simp [hv, hok] at h
    · simp [hv] at h

lemma loopOutcome_missing (env : Env) (versions : List Int)
    (hall : ∀ v : Int, env.scriptOk v = true) :
    ∀ (vs : List Int) (m : Int),
      vs.find? (fun v => decide (v ∉ versions)) = some m →
      loopOutcome env versions vs = .error (.missingVersion m) := by
  intro vs
  induction vs with
  | nil => intro m h; exact Option.noConfusion h
  | cons v rest ih =>
    intro m h
    by_cases hv : v ∈ versions
    · rw [List.find?_cons_of_neg _ (by simpa using hv)] at h
      simp only [loopOutcome, hv, hall v, if_true]
      exact ih m h
    · rw [List.find?_cons_of_pos _ (by simpa using hv)] at h
      rw [Option.some_inj] at h
      simp only [loopOutcome, hv, if_false]
      rw [h]

lemma migrate_run_eq (env : Env) (c : Ctx) (ht : c.txn = none)
    (hl : env.lockTakenByOther = false) :
    _migrate env c =
      if (load_versions env (query_current_version c.committed)).isEmpty then
        (.ok (), { c with
          committed := { c.committed with tableExists := true },
          txn := none,
          lockHeld := false })
      else
        match scripts_and_insert env (query_current_version c.committed)
                (listMax (load_versions env (query_current_version c.committed)))
                (load_versions env (query_current_version c.committed))
                { c with
                  txn := some { c.committed with tableExists := true },
                  lockHeld := true } with
        | (.ok a, c1) => (.ok a, { c1 with
            committed := c1.view,
            txn := none,
            lockHeld := false })
        | (.error e, c1) => (.error e, { c1 with
            committed := c.committed,
            txn := none,
            lockHeld := false }) := by
  obtain ⟨comm, txn, lh⟩ := c
  cases txn with
  | some t => exact Option.noConfusion ht
  | none =>
    simp only [_migrate, transactional, migrate_body, try_transaction_lock, hl,
      Bool.false_eq_true, if_false, create_database_migration_table_if_not_exist,
      Ctx.setView, Ctx.view, Option.getD, execute_migration_scripts,
      query_current_version_tableExists]
    cases hemp : (load_versions env (query_current_version comm)).isEmpty with
    | true => simp only [hemp, if_true]
    | false =>
      simp only [hemp, Bool.false_eq_true, if_false]
      rcases hsi : scripts_and_insert env (query_current_version comm)
          (listMax (load_versions env (query_current_version comm)))
          (load_versions env (query_current_version comm))
          { committed := comm, txn := some { comm with tableExists := true },
            lockHeld := true } with ⟨res, c1⟩
      cases res <;> rfl

lemma migrate_error_rollback (env : Env) (c : Ctx) (ht : c.txn = none) :
    ∀ e : DBError, (_migrate env c).1 = .error e →
      (_migrate env c).2.committed = c.committed ∧
      (migrate_body env { c with txn := some c.committed }).1 = .error e := by
  intro e he
  obtain ⟨comm, txn, lh⟩ := c
  cases txn with
  | some t => exact Option.noConfusion ht
  | none =>
    simp only [_migrate, transactional] at he ⊢
    rcases hb : migrate_body env { committed := comm, txn := some comm, lockHeld := lh }
      with ⟨res, c1⟩
    cases res with
    | ok a => rw [hb] at he; simp at he
    | error e' =>
      rw [hb] at he
      dsimp only at he ⊢
      exact ⟨rfl, he⟩

lemma migrate_noop (env : Env) (c : Ctx) (ht : c.txn = none)
    (hl : env.lockTakenByOther = false)
    (hemp : load_versions env (query_current_version c.committed) = []) :
    _migrate env c = (.ok (), { c with
      committed := { c.committed with tableExists := true },
      txn := none,
      lockHeld := false }) := by
  rw [migrate_run_eq env c ht hl, hemp]
  rfl

lemma insert_migration_eq (c : Ctx) (f t : Int) (ts : Nat) :
    insert_migration c f t ts =
      if f < t then
        (if c.view.ledger.any (fun r => rangesOverlap f t r.from_version r.to_version) then
          (.error .overlapViolation, c)
         else
          (.ok (), c.setView { c.view with
            ledger := c.view.ledger ++ [⟨c.view.nextId, f, t, ts⟩],
            nextId := c.view.nextId + 1 }))
      else (.error .checkViolation, c) := by
  simp only [insert_migration]
  by_cases h : f < t
  · rw [if_neg (not_not_intro h), if_pos h]
  · rw [if_pos h, if_neg h]

lemma migrate_applied (env : Env) (comm : DBState) (lh : Bool)
    (hl : env.lockTakenByOther = false)
    (hne : load_versions env (query_current_version comm) ≠ [])
    (hok : (_migrate env ⟨comm, none, lh⟩).1 = .ok ()) :
    _migrate env ⟨comm, none, lh⟩ = (.ok (), ⟨{ comm with
      tableExists := true,
      ledger := comm.ledger ++
        [⟨comm.nextId, query_current_version comm,
          listMax (load_versions env (query_current_version comm)), env.now⟩],
      nextId := comm.nextId + 1,
      appliedScripts := comm.appliedScripts ++
        rangeClosed (query_current_version comm)
          (listMax (load_versions env (query_current_version comm))) }, none, false⟩) := by
  have hempty : (load_versions env (query_current_version comm)).isEmpty = false := by
    rcases hE : load_versions env (query_current_version comm) with _ | ⟨a, t⟩
    · exact absurd hE hne
    · rfl
  rw [migrate_run_eq env ⟨comm, none, lh⟩ rfl hl] at hok ⊢
  simp only [hempty, Bool.false_eq_true, if_false] at hok ⊢
  simp only [scripts_and_insert] at hok ⊢
  rw [execute_scripts_loop_eq] at hok ⊢
  cases hlo : loopOutcome env (load_versions env (query_current_version comm))
      (rangeClosed (query_current_version comm)
        (listMax (load_versions env (query_current_version comm)))) with
  | error e => rw [hlo] at hok; simp at hok
  | ok u =>
    cases u
    rw [hlo] at hok
    rw [appliedUpTo_of_ok _ _ _ hlo] at hok ⊢
    dsimp only at hok ⊢
    rw [insert_migration_eq, view_setView] at hok ⊢
    by_cases hct : query_current_version comm <
        listMax (load_versions env (query_current_version comm))
    · rw [if_pos hct] at hok ⊢
      dsimp only [Ctx.view, Ctx.setView, Option.getD] at hok ⊢
      by_cases hov : comm.ledger.any
          (fun r => rangesOverlap (query_current_version comm)
            (listMax (load_versions env (query_current_version comm)))
            r.from_version r.to_version)
      · rw [if_pos hov] at hok; simp at hok
      · rw [if_neg hov] at hok ⊢
    · rw [if_neg hct] at hok
      simp at hok

lemma query_append (l : List MigrationRecord) (row : MigrationRecord)
    (h : ∀ r ∈ l, r.id < row.id) (s : DBState) (hs : s.ledger = l ++ [row]) :
    query_current_version s = row.to_version := by
  unfold query_current_version selectTopToVersion
  rw [hs, topByIdDesc_append_big h]
  simp [Option.map_some', pyOrZero_some]

lemma migrate_applied_version (env : Env) (comm : DBState) (lh : Bool)
    (hl : env.lockTakenByOther = false)
    (hwf : ∀ r ∈ comm.ledger, r.id < comm.nextId)
    (hne : load_versions env (query_current_version comm) ≠ [])
    (hok : (_migrate env ⟨comm, none, lh⟩).1 = .ok ()) :
    query_current_version ((_migrate env ⟨comm, none, lh⟩).2.committed) =
      listMax (load_versions env (query_current_version comm)) := by
  rw [migrate_applied env comm lh hl hne hok]
  exact query_append comm.ledger
    ⟨comm.nextId, query_current_version comm,
      listMax (load_versions env (query_current_version comm)), env.now⟩ hwf _ rfl

lemma load_versions_after_max (env : Env) (after : Int)
    (hne : load_versions env after ≠ []) :
    load_versions env (listMax (load_versions env after)) = [] := by
  apply List.filter_eq_nil_iff.mpr
  intro v hv
  simp only [decide_eq_true_eq, not_lt]
  by_cases hcv : after < v
  · exact le_listMax (List.mem_filter.mpr ⟨hv, by simpa using hcv⟩)
  · have h1 : v ≤ after := not_lt.mp hcv
    have h2 : after < listMax (load_versions env after) := by
      have := List.mem_filter.mp (listMax_mem hne)
      simpa using this.2
    exact le_trans h1 (le_of_lt h2)

/-- C1: for every run of the migration orchestrator _migrate started outside
a transaction, if the run raises any failure (table creation, version read,
script execution or ledger insert), the whole transaction rolls back: the
committed state — hence the current version and the ledger, which gains
zero rows — is unchanged, and the error is exactly the one the body raised,
propagated unchanged to the caller. -/
theorem claim_C1 (env : Env) (c : Ctx) (ht : c.txn = none) (e : DBError)
    (he : (_migrate env c).1 = .error e) :
    (_migrate env c).2.committed = c.committed ∧
    (_migrate env c).2.committed.ledger = c.committed.ledger ∧
    query_current_version ((_migrate env c).2.committed) =
      query_current_version c.committed ∧
    (migrate_body env { c with txn := some c.committed }).1 = .error e := by
  obtain ⟨h1, h2⟩ := migrate_error_rollback env c ht e he
  exact ⟨h1, by rw [h1], by rw [h1], h2⟩

/-- Witness for C1: with scripts for versions 1 and 3 only over an empty
database, the run fails (with the missing-version error at 2) and the
committed state, ledger and current version are unchanged. -/
theorem claim_C1_witness :
    (_migrate env13 ctx0).2.committed = ctx0.committed ∧
    (_migrate env13 ctx0).2.committed.ledger = ctx0.committed.ledger ∧
    query_current_version ((_migrate env13 ctx0).2.committed) =
      query_current_version ctx0.committed ∧
    (migrate_body env13 { ctx0 with txn := some ctx0.committed }).1 =
      .error (.missingVersion 2) :=
  claim_C1 env13 ctx0 rfl (.missingVersion 2) rfl

/-- C2: with scripts for versions 1, 2 and 3 over an empty ledger, a
successful migrate run executes the scripts 1, 2, 3 in ascending order,
inserts exactly one ledger record (from 0 to 3), and the current version
becomes 3; and in general, after any successful run that had a non-empty
pending set, the current version equals the maximum version among the
previously-pending scripts. -/
theorem claim_C2 :
    (_migrate env123 ctx0 = (.ok (), {
        committed := {
          tableExists := true,
          ledger := [⟨1, 0, 3, 7⟩],
          nextId := 2,
          appliedScripts := [1, 2, 3] },
        txn := none,
        lockHeld := false }) ∧
     query_current_version ((_migrate env123 ctx0).2.committed) = 3) ∧
    ∀ (env : Env) (comm : DBState) (lh : Bool),
      env.lockTakenByOther = false →
      (∀ r ∈ comm.ledger, r.id < comm.nextId) →
      load_versions env (query_current_version comm) ≠ [] →
      (_migrate env ⟨comm, none, lh⟩).1 = .ok () →
      query_current_version ((_migrate env ⟨comm, none, lh⟩).2.committed) =
        listMax (load_versions env (query_current_version comm)) :=
  ⟨⟨rfl, rfl⟩, fun env comm lh hl hwf hne hok =>
    migrate_applied_version env comm lh hl hwf hne hok⟩

/-- Witness for C2: the general clause applied to the concrete scenario of
scripts 1, 2, 3 over the empty database. -/
theorem claim_C2_witness :
    query_current_version ((_migrate env123 ctx0).2.committed) =
      listMax (load_versions env123 (query_current_version ctx0.committed)) :=
  claim_C2.2 env123 ctx0.committed false rfl (fun r hr => nomatch hr) (by decide) rfl

/-- C3: whenever some version of the contiguous range from the current
version (exclusive) to the target (inclusive) has no corresponding script —
the versions present executing normally — the run fails with the
missing-version error at the first gap and the committed state (hence the
ledger) is unchanged. -/
theorem claim_C3 (env : Env) (comm : DBState) (lh : Bool) (m : Int)
    (hl : env.lockTakenByOther = false)
    (hall : ∀ v : Int, env.scriptOk v = true)
    (hne : load_versions env (query_current_version comm) ≠ [])
    (hgap : (rangeClosed (query_current_version comm)
        (listMax (load_versions env (query_current_version comm)))).find?
        (fun v => decide (v ∉ load_versions env (query_current_version comm))) = some m) :
    (_migrate env ⟨comm, none, lh⟩).1 = .error (.missingVersion m) ∧
    (_migrate env ⟨comm, none, lh⟩).2.committed = comm := by
  have hempty : (load_versions env (query_current_version comm)).isEmpty = false := by
    rcases hE : load_versions env (query_current_version comm) with _ | ⟨a, t⟩
    · exact absurd hE hne
    · rfl
  have hlo := loopOutcome_missing env (load_versions env (query_current_version comm))
    hall _ m hgap
  rw [migrate_run_eq env ⟨comm, none, lh⟩ rfl hl]
  simp only [hempty, Bool.false_eq_true, if_false]
  simp only [scripts_and_insert]
  rw [execute_scripts_loop_eq, hlo]
  exact ⟨rfl, rfl⟩

/-- Witness for C3: scripts exist for versions 1 and 3 (gap at 2) and the
ledger is empty; the run fails with the missing-version error at 2 and the
committed state is unchanged. -/
theorem claim_C3_witness :
    (_migrate env13 ⟨ctx0.committed, none, false⟩).1 = .error (.missingVersion 2) ∧
    (_migrate env13 ⟨ctx0.committed, none, false⟩).2.committed = ctx0.committed :=
  claim_C3 env13 ctx0.committed false 2 rfl (fun v => rfl) (by decide) (by decide)

/-- C4: when the advisory lock attempt reports the lock as already taken,
_migrate terminates normally without raising, and the final context equals
the initial one (no table creation, no script execution, no ledger insert —
zero database writes). -/
theorem claim_C4 (env : Env) (c : Ctx) (ht : c.txn = none)
    (hl : env.lockTakenByOther = true) :
    _migrate env c = (.ok (), { c with txn := none, lockHeld := false }) := by
  obtain ⟨comm, txn, lh⟩ := c
  cases txn with
  | some t => exact Option.noConfusion ht
  | none =>
    simp only [_migrate, transactional, migrate_body, try_transaction_lock, hl, if_true]
    rfl

/-- Witness for C4: with the lock already held by another session, the run
over the fresh context returns normally with the context unchanged. -/
theorem claim_C4_witness :
    _migrate env123locked ctx0 = (.ok (), { ctx0 with txn := none, lockHeld := false }) :=
  claim_C4 env123locked ctx0 rfl rfl

lemma rangesOverlap_comm (f1 t1 f2 t2 : Int) :
    rangesOverlap f1 t1 f2 t2 = rangesOverlap f2 t2 f1 t1 := by
  unfold rangesOverlap
  rw [max_comm, min_comm]

lemma any_overlap_false {l : List MigrationRecord} {f t : Int}
    (hov : ¬ l.any (fun r => rangesOverlap f t r.from_version r.to_version) = true) :
    ∀ r ∈ l, rangesOverlap f t r.from_version r.to_version = false := by
  intro r hr
  rw [List.any_eq_true] at hov
  push_neg at hov
  have := hov r hr
  simp only [Bool.not_eq_true] at this
  exact this

/-- C5: the ledger schema rejects, at the storage level, every insert whose
row does not satisfy to_version > from_version (the CHECK constraint) and
every insert whose half-open range overlaps an existing row's range (the
exclusion constraint), leaving the state untouched; an insert succeeds only
when both constraints hold, and a succeeding insert preserves the invariant
that all rows have increasing ranges that pairwise never overlap. -/
theorem claim_C5 (c : Ctx) (f t : Int) (ts : Nat) :
    (¬ f < t → insert_migration c f t ts = (.error .checkViolation, c)) ∧
    (f < t →
      (∃ r ∈ c.view.ledger, rangesOverlap f t r.from_version r.to_version = true) →
      insert_migration c f t ts = (.error .overlapViolation, c)) ∧
    ((insert_migration c f t ts).1 = .ok () →
      f < t ∧ ∀ r ∈ c.view.ledger, rangesOverlap f t r.from_version r.to_version = false) ∧
    ((∀ r ∈ c.view.ledger, r.from_version < r.to_version) →
      c.view.ledger.Pairwise (fun a b =>
        rangesOverlap a.from_version a.to_version b.from_version b.to_version = false) →
      (insert_migration c f t ts).1 = .ok () →
      (∀ r ∈ ((insert_migration c f t ts).2).view.ledger,
        r.from_version < r.to_version) ∧
      ((insert_migration c f t ts).2).view.ledger.Pairwise (fun a b =>
        rangesOverlap a.from_version a.to_version b.from_version b.to_version = false)) := by
  rw [insert_migration_eq]
  refine ⟨?_, ?_, ?_, ?_⟩
  · intro h
    rw [if_neg h]
  · intro h hov
    rw [if_pos h, if_pos (List.any_eq_true.mpr (by simpa using hov))]
  · intro hok
    by_cases h : f < t
    · rw [if_pos h] at hok
      by_cases hov : c.view.ledger.any
          (fun r => rangesOverlap f t r.from_version r.to_version) = true
      · rw [if_pos hov] at hok
        exact absurd hok (by simp)
      · exact ⟨h, any_overlap_false hov⟩
    · rw [if_neg h] at hok
      exact absurd hok (by simp)
  · intro hrow hpair hok
    by_cases h : f < t
    · by_cases hov : c.view.ledger.any
          (fun r => rangesOverlap f t r.from_version r.to_version) = true
      · rw [if_pos h, if_pos hov] at hok
        exact absurd hok (by simp)
      · rw [if_pos h, if_neg hov] at hok ⊢
        dsimp only at hok ⊢
        rw [view_setView]
        dsimp only
        have hall := any_overlap_false hov
        constructor
        · intro r hr
          rcases List.mem_append.mp hr with hr1 | hr2
          · exact hrow r hr1
          · have hr3 : r = ⟨c.view.nextId, f, t, ts⟩ := List.mem_singleton.mp hr2
            subst hr3
            exact h
        · rw [List.pairwise_append]
          refine ⟨hpair, List.pairwise_singleton _ _, ?_⟩
          intro a ha b hb
          have hb' : b = ⟨c.view.nextId, f, t, ts⟩ := List.mem_singleton.mp hb
          subst hb'
          rw [rangesOverlap_comm]
          exact hall a ha
    · rw [if_neg h] at hok
      exact absurd hok (by simp)

/-- Witness for C5: with the (0, 3] and (3, 5] ranges already in the ledger,
inserting the overlapping range (2, 4] is rejected by the exclusion
constraint with the state untouched. -/
theorem claim_C5_witness :
    insert_migration ctxLedger2 2 4 9 = (.error .overlapViolation, ctxLedger2) :=
  (claim_C5 ctxLedger2 2 4 9).2.1 (by decide) ⟨⟨1, 0, 3, 0⟩, by decide, by decide⟩

/-- C6: the current-version read in _migrate returns 0 on an empty ledger
and the to_version of the ledger row with the largest id otherwise. -/
theorem claim_C6 (s : DBState) :
    (s.ledger = [] → query_current_version s = 0) ∧
    (∀ r ∈ s.ledger, (∀ x ∈ s.ledger, x ≠ r → x.id < r.id) →
      query_current_version s = r.to_version) := by
  constructor
  · intro h
    unfold query_current_version selectTopToVersion
    rw [h]
    rfl
  · intro r hr hmax
    obtain ⟨b, hb⟩ : ∃ b, topByIdDesc s.ledger = some b := by
      cases hT : topByIdDesc s.ledger with
      | none =>
        rw [topByIdDesc_eq_none] at hT
        rw [hT] at hr
        exact absurd hr (List.not_mem_nil r)
      | some b => exact ⟨b, rfl⟩
    have hbr : b = r := by
      by_cases hbr' : b = r
      · exact hbr'
      · have h1 : b.id < r.id := hmax b (topByIdDesc_mem hb) hbr'
        have h2 : r.id ≤ b.id := topByIdDesc_ge hb r hr
        omega
    unfold query_current_version selectTopToVersion
    rw [hb, hbr, Option.map_some', pyOrZero_some]

/-- Witness for C6: on a ledger holding rows with ids 1 and 2, the read
returns the to_version 5 of the row with the largest id. -/
theorem claim_C6_witness :
    query_current_version ctxLedger2.committed = 5 :=
  (claim_C6 ctxLedger2.committed).2 ⟨2, 3, 5, 0⟩ (by decide) (by decide)

lemma second_run_noop (env : Env) (s : DBState)
    (hl : env.lockTakenByOther = false) (hte : s.tableExists = true)
    (hp : load_versions env (query_current_version s) = []) :
    _migrate env ⟨s, none, false⟩ = (.ok (), ⟨s, none, false⟩) := by
  obtain ⟨te, l, n, a⟩ := s
  have hte' : te = true := hte
  subst hte'
  have h2 := migrate_noop env ⟨⟨true, l, n, a⟩, none, false⟩ rfl hl hp
  rw [h2]

/-- C7: the orchestrator is idempotent — after a successful run, a second
run over the same environment observes an empty pending set and terminates
as a no-op, leaving the context exactly as the first run left it (no script
applied, no ledger row inserted). -/
theorem claim_C7 (env : Env) (comm : DBState) (lh : Bool)
    (hl : env.lockTakenByOther = false)
    (hwf : ∀ r ∈ comm.ledger, r.id < comm.nextId)
    (hok : (_migrate env ⟨comm, none, lh⟩).1 = .ok ()) :
    load_versions env
      (query_current_version ((_migrate env ⟨comm, none, lh⟩).2).committed) = [] ∧
    _migrate env ((_migrate env ⟨comm, none, lh⟩).2) =
      (.ok (), (_migrate env ⟨comm, none, lh⟩).2) := by
  by_cases hne : load_versions env (query_current_version comm) = []
  · have h1 := migrate_noop env ⟨comm, none, lh⟩ rfl hl hne
    have hq : query_current_version { comm with tableExists := true } =
        query_current_version comm := query_current_version_tableExists comm
    rw [h1]
    dsimp only
    constructor
    · rw [hq]
      exact hne
    · exact second_run_noop env { comm with tableExists := true } hl rfl
        (by rw [hq]; exact hne)
  · have happ := migrate_applied env comm lh hl hne hok
    have hq := migrate_applied_version env comm lh hl hwf hne hok
    have hp2 : load_versions env
        (listMax (load_versions env (query_current_version comm))) = [] :=
      load_versions_after_max env _ hne
    rw [happ] at hq
    dsimp only at hq
    rw [happ]
    dsimp only
    constructor
    · rw [hq]
      exact hp2
    · exact second_run_noop env _ hl rfl (by rw [hq]; exact hp2)

/-- Witness for C7: after the successful run over scripts 1, 2, 3, the
pending set is empty and a second run is a no-op returning the context
unchanged. -/
theorem claim_C7_witness :
    load_versions env123
      (query_current_version ((_migrate env123 ⟨ctx0.committed, none, false⟩).2).committed) = [] ∧
    _migrate env123 ((_migrate env123 ⟨ctx0.committed, none, false⟩).2) =
      (.ok (), (_migrate env123 ⟨ctx0.committed, none, false⟩).2) :=
  claim_C7 env123 ctx0.committed false rfl (fun r hr => nomatch hr) rfl

/-- C8: the advisory lock key is exactly the running interpreter's string
hash of the fixed salted table name, so two processes whose built-in string
hash differs on that input compute different keys — the key is not a fixed
cross-process constant, contrary to the claim (Python's str hash is salted
per process unless PYTHONHASHSEED is pinned). -/
theorem claim_C8 (h1 h2 : String → Int)
    (hne : h1 MIGRATION_LOCK_INPUT ≠ h2 MIGRATION_LOCK_INPUT) :
    MIGRATION_LOCK_KEY h1 ≠ MIGRATION_LOCK_KEY h2 := hne

/-- Witness for C8: two interpreter hash functions disagreeing on the salted
input yield different lock keys. -/
theorem claim_C8_witness :
    MIGRATION_LOCK_KEY (fun _ => 0) ≠ MIGRATION_LOCK_KEY (fun _ => 1) :=
  claim_C8 (fun _ => 0) (fun _ => 1) (by decide)

/-- C9: the transactional executor reuses an already-active transaction on
the same context (no nested begin/commit); otherwise it commits the view on
normal return and, on any raised failure, re-raises the same failure after
restoring the committed state; consequently a failure in an inner
transactional call such as execute_migration_scripts inside _migrate rolls
back the entire outer unit of work. -/
theorem claim_C9 {α : Type} (f : Ctx → Except DBError α × Ctx) (c : Ctx) :
    (∀ s : DBState, c.txn = some s → transactional f c = f c) ∧
    (c.txn = none → ∀ (a : α) (c1 : Ctx),
      f { c with txn := some c.committed } = (.ok a, c1) →
      transactional f c =
        (.ok a, { c1 with committed := c1.view, txn := none, lockHeld := false })) ∧
    (c.txn = none → ∀ (e : DBError) (c1 : Ctx),
      f { c with txn := some c.committed } = (.error e, c1) →
      transactional f c =
        (.error e, { c1 with committed := c.committed, txn := none, lockHeld := false })) ∧
    (∀ (env : Env) (e : DBError), c.txn = none → (_migrate env c).1 = .error e →
      (_migrate env c).2.committed = c.committed) := by
  refine ⟨?_, ?_, ?_, ?_⟩
  · intro s hs
    simp only [transactional]
    rw [hs]
  · intro ht a c1 hf
    simp only [transactional]
    rw [ht, hf]
  · intro ht e c1 hf
    simp only [transactional]
    rw [ht, hf]
  · intro env e ht he
    exact (migrate_error_rollback env c ht e he).1

/-- Witness for C9: a body that raises over the fresh context is re-raised
unchanged by the executor with the committed state restored. -/
theorem claim_C9_witness :
    transactional (fun c => ((.error .overlapViolation : Except DBError Unit), c)) ctx0 =
      (.error .overlapViolation, ctx0) :=
  (claim_C9 (fun c => ((.error .overlapViolation : Except DBError Unit), c)) ctx0).2.2.1
    rfl .overlapViolation { ctx0 with txn := some ctx0.committed } rfl

/-- C10: the migrate task runs the two pre-flight guards exactly when the
environment is neither dev nor test, and then in order before creating the
database and before opening any database connection; in dev and test both
guards are skipped. -/
theorem claim_C10 (is_dev is_test : Bool) :
    migrate_database is_dev is_test =
      if is_dev || is_test then
        [MigrateStep.create_database_if_not_exist, MigrateStep.open_db_connection,
         MigrateStep.run_migrate]
      else
        [MigrateStep.check_no_scripts_not_locked, MigrateStep.check_no_locked_scripts_changed,
         MigrateStep.create_database_if_not_exist, MigrateStep.open_db_connection,
         MigrateStep.run_migrate] := by
  cases is_dev <;> cases is_test <;> rfl

end Fas
